import Mathlib

/-!
Verification of the tool-calling orchestration core of the jarvis repository
(src/core/orchestrator.py together with src/core/config.py).

Strings are modelled as `List Char`; Python string methods used by the code
(`strip`, `lstrip`, `rstrip`, `startswith`, `endswith`, slicing `[-k:]`,
`str.replace`, `in`) are embedded as executable functions below, and the
regular expressions of the code (all of them of the simple lazy-block form
`open([\s\S]*?)close`) are embedded as explicit left-to-right scanners.
JSON decoding (Python `json.loads`) and the HTML entity unescaping of the
standard library are kept abstract (parameters of the model), as are the
LLM endpoint and the concrete tool handlers: the orchestrator treats all of
these as opaque collaborators.
-/

namespace Jarvis

/-- Whitespace recognised by Python `str.strip` / the regex class `\s`
(restricted to the ASCII range, which is all the orchestrator manipulates). -/
def pySpace (c : Char) : Bool :=
  c = ' ' || c = '\t' || c = '\n' || c = '\r' || c = '\x0b' || c = '\x0c'

/-- Python `str.lstrip()`. -/
def pyLStrip (s : List Char) : List Char := s.dropWhile pySpace

/-- Python `str.rstrip()`. -/
def pyRStrip (s : List Char) : List Char := (s.reverse.dropWhile pySpace).reverse

/-- Python `str.strip()`. -/
def pyStrip (s : List Char) : List Char := pyRStrip (pyLStrip s)

/-- Python slicing `lst[-k:]`.  For `k = 0` this is the WHOLE list
(`lst[-0:] = lst[0:]`), not the empty list. -/
def pyLastSlice (k : Nat) (l : List α) : List α :=
  if k = 0 then l else l.drop (l.length - k)

/-- Python `str.startswith`. -/
def listStartsWith : List Char → List Char → Bool
  | [], _ => true
  | _ :: _, [] => false
  | p :: ps, c :: cs => p = c && listStartsWith ps cs

/-- Does the list end with a period (Python `s.endswith(".")`). -/
def endsWithDot (l : List Char) : Bool := decide (l.getLast? = some '.')

/-- Split a string at the first occurrence of `pat`: returns the part strictly
before the occurrence and the part strictly after it (Python `str.find` plus
slicing; also the backbone of the lazy-regex scanners below). -/
def firstSplit (pat : List Char) : List Char → Option (List Char × List Char)
  | [] => if listStartsWith pat [] then some ([], []) else none
  | c :: rest =>
    if listStartsWith pat (c :: rest) then some ([], (c :: rest).drop pat.length)
    else
      match firstSplit pat rest with
      | none => none
      | some p => some (c :: p.1, p.2)

/-- Python `pat in s`. -/
def containsSub (pat s : List Char) : Bool := (firstSplit pat s).isSome

/-- Text strictly after the LAST occurrence of `pat` (Python `str.rfind` plus
slicing), fuelled; the fuel `s.length + 1` always suffices because every
recursive step consumes at least `pat.length ≥ 1` characters. -/
def rfindAfterF (pat : List Char) : Nat → List Char → Option (List Char)
  | 0, _ => none
  | f + 1, s =>
    match firstSplit pat s with
    | none => none
    | some p =>
      match rfindAfterF pat f p.2 with
      | none => some p.2
      | some r => some r

/-- Text strictly after the last occurrence of `pat`, or `none` if absent. -/
def rfindAfter (pat s : List Char) : Option (List Char) :=
  rfindAfterF pat (s.length + 1) s

/-- Python `s.replace(pat, "")`: delete every occurrence of `pat`, scanning
left to right without rescanning the already-produced output. -/
def removeAllSubF (pat : List Char) : Nat → List Char → List Char
  | 0, s => s
  | f + 1, s =>
    match firstSplit pat s with
    | none => s
    | some p => p.1 ++ removeAllSubF pat f p.2

/-- Python `s.replace(pat, "")`. -/
def removeAllSub (pat s : List Char) : List Char :=
  removeAllSubF pat (s.length + 1) s

/-- The fixed tool-call markers of `config.TOOL_CALL_PATTERN`
(`<tool_call>([\s\S]*?)</tool_call>`). -/
def toolOpenTag : List Char := "<tool_call>".data

/-- Closing tool-call marker. -/
def toolCloseTag : List Char := "</tool_call>".data

/-- Opening reasoning marker. -/
def thinkOpenTag : List Char := "<think>".data

/-- Closing reasoning marker. -/
def thinkCloseTag : List Char := "</think>".data

/-- All captured groups of `TOOL_CALL_PATTERN.finditer(s)`, in document
order: repeatedly take the first `<tool_call>`, then the first `</tool_call>`
after it (the lazy `[\s\S]*?`), capture what is between, and continue after
the closing marker.  Fuelled; `s.length + 1` always suffices since every step
consumes at least the two markers (23 characters). -/
def findBlocksF : Nat → List Char → List (List Char)
  | 0, _ => []
  | f + 1, s =>
    match firstSplit toolOpenTag s with
    | none => []
    | some p =>
      match firstSplit toolCloseTag p.2 with
      | none => []
      | some q => q.1 :: findBlocksF f q.2

/-- Captured groups of `TOOL_CALL_PATTERN.finditer(s)` in document order. -/
def findBlocks (s : List Char) : List (List Char) :=
  findBlocksF (s.length + 1) s

/-- Whether `list(TOOL_CALL_PATTERN.finditer(s))` is non-empty. -/
def hasToolCall (s : List Char) : Bool := !(findBlocks s).isEmpty

/-- One pass of `re.sub(r"<think>.*?</think>\s*", "", s, flags=re.DOTALL)`:
remove every lazy think block together with the whitespace run following it,
scanning left to right (no rescan of the output). -/
def removeThinkF : Nat → List Char → List Char
  | 0, s => s
  | f + 1, s =>
    match firstSplit thinkOpenTag s with
    | none => s
    | some p =>
      match firstSplit thinkCloseTag p.2 with
      | none => s
      | some q => p.1 ++ removeThinkF f (q.2.dropWhile pySpace)

/-- The substitution `re.sub(r"<think>.*?</think>\s*", "", s, re.DOTALL)`. -/
def removeThink (s : List Char) : List Char := removeThinkF (s.length + 1) s

/-- Whether `s` contains a (lazy) match of `<think>.*?</think>`: an opening
marker with a closing marker somewhere after it. -/
def hasThinkMatch (s : List Char) : Bool :=
  match firstSplit thinkOpenTag s with
  | none => false
  | some p => (firstSplit thinkCloseTag p.2).isSome

/-- The substitution `TOOL_CALL_PATTERN.sub("", s)`. -/
def removeToolCallsF : Nat → List Char → List Char
  | 0, s => s
  | f + 1, s =>
    match firstSplit toolOpenTag s with
    | none => s
    | some p =>
      match firstSplit toolCloseTag p.2 with
      | none => s
      | some q => p.1 ++ removeToolCallsF f q.2

/-- The substitution `TOOL_CALL_PATTERN.sub("", s)`. -/
def removeToolCalls (s : List Char) : List Char :=
  removeToolCallsF (s.length + 1) s

/-! ### Data model -/

/-- A parsed tool call (`json.loads` of the inner content of a marker block):
required key `name`, optional key `id`; the `arguments` value is kept at an
abstract type `A`, since the orchestrator only forwards it to the agent. -/
structure ToolCallData (A : Type) where
  name : Option (List Char)
  id : Option (List Char)
  args : A
deriving DecidableEq, Repr

/-- One conversation message, the shape stored in `Orchestrator.messages`
and sent on the wire (`role`/`content`, plus the optional `name`,
`tool_call_id` and `tool_calls` keys the code attaches). -/
structure Msg (A : Type) where
  role : List Char
  content : List Char
  name : Option (List Char)
  tool_call_id : Option (List Char)
  toolCalls : List (ToolCallData A)
deriving DecidableEq, Repr

/-- Role tag `"system"`. -/
def sysRole : List Char := "system".data

/-- Role tag `"user"`. -/
def userRole : List Char := "user".data

/-- Role tag `"assistant"`. -/
def asstRole : List Char := "assistant".data

/-- Role tag `"tool"`. -/
def toolRole : List Char := "tool".data

/-! ### History pruning (`Orchestrator.chat` lines 317-318 and 348-349) -/

/-- The between-turn length prune:
`if len(msgs) > max_history*2 + 1: msgs = [msgs[0]] + msgs[-(max_history*2):]`. -/
def betweenTurnPrune (m : Nat) (msgs : List (Msg A)) : List (Msg A) :=
  if msgs.length > 2 * m + 1 then msgs.take 1 ++ pyLastSlice (2 * m) msgs else msgs

/-- The turn-specific prune applied during tool dispatch, with `k` the number
of tool results just appended:
`if len(msgs) > max_history*3 + 1 + k: msgs = [msgs[0]] + msgs[-(max_history*3 + k):]`. -/
def dispatchPrune (m k : Nat) (msgs : List (Msg A)) : List (Msg A) :=
  if msgs.length > 3 * m + 1 + k then msgs.take 1 ++ pyLastSlice (3 * m + k) msgs
  else msgs

/-! ### Transmission pruning (`Orchestrator._prune_history_for_api`) -/

/-- A genuine user message: role `user` whose stripped content does not start
with `<tool_response>`. -/
def isTrueUser (m : Msg A) : Bool :=
  decide (m.role = userRole) &&
    !(listStartsWith "<tool_response>".data (pyStrip m.content))

/-- Index of the last genuine user message (the backwards scan computing
`last_true_user_turn_idx`), `none` when there is none (Python `-1`). -/
def lastTrueUserIdx : List (Msg A) → Option Nat
  | [] => none
  | m :: rest =>
    match lastTrueUserIdx rest with
    | some k => some (k + 1)
    | none => if isTrueUser m then some 0 else none

/-- Indexed map used to embed the `for i, msg in enumerate(...)` loop. -/
def mapWithIdx (f : Nat → Msg A → Msg A) : Nat → List (Msg A) → List (Msg A)
  | _, [] => []
  | i, m :: rest => f i m :: mapWithIdx f (i + 1) rest

/-- Per-message body of the pruning loop: assistant messages strictly before
the last genuine user index get their think blocks removed and the result
stripped; every other message is copied unchanged. -/
def pruneMsg (k i : Nat) (m : Msg A) : Msg A :=
  if m.role = asstRole ∧ i < k then
    ⟨m.role, pyStrip (removeThink m.content), m.name, m.tool_call_id, m.toolCalls⟩
  else m

/-- Embedding of `Orchestrator._prune_history_for_api`: returns the input unchanged when no
genuine user message exists, otherwise a fresh list of per-message copies with
reasoning stripped from pre-turn assistant messages. -/
def pruneForApi (msgs : List (Msg A)) : List (Msg A) :=
  match lastTrueUserIdx msgs with
  | none => msgs
  | some k => mapWithIdx (pruneMsg k) 0 msgs

/-! ### Tool-call parsing and dispatch (`Orchestrator._handle_tool_calls`) -/

section Handle

variable {A : Type} (decode : List Char → Option (ToolCallData A))
variable (known : List Char → Bool) (execTool : List Char → A → List Char)

/-- The history message recorded for one successfully decoded tool call `d`
(stripped inner content `t`): content is the agent's result for a recognised
name, or the corresponding bracketed error string. -/
def validResultMsg (d : ToolCallData A) (t : List Char) : Msg A :=
  let content :=
    match d.name with
    | none => "[Error: Tool call missing 'name'. Call: ".data ++ t ++ "]".data
    | some n =>
      if known n then execTool n d.args
      else "[Error: Tool '".data ++ n ++
        "' is not recognized or not mapped to any agent.]".data
  ⟨toolRole, content, d.name,
    (match d.id with | some i => some i | none => d.name), []⟩

/-- The history message recorded for a marker block whose stripped inner
content `t` is not valid JSON; `n` is `len(tool_results_for_history)` at that
point (one result per earlier match, so simply the match index). -/
def parseErrMsg (t : List Char) (n : Nat) : Msg A :=
  ⟨toolRole,
    "[Error: Invalid JSON in tool call. Stripped content: ".data ++
      t.take 1000 ++ "]".data,
    some "json_parse_error".data,
    some ("parse_error_".data ++ (Nat.repr n).data), []⟩

/-- Loop body of `_handle_tool_calls` over the matched blocks, accumulating
the decoded requests and one tool-result message per match. -/
def htcAux : List (List Char) → Nat → List (ToolCallData A) × List (Msg A)
  | [], _ => ([], [])
  | inner :: rest, n =>
    let t := pyStrip inner
    let prev := htcAux rest (n + 1)
    match decode t with
    | some d => (d :: prev.1, validResultMsg known execTool d t :: prev.2)
    | none => (prev.1, parseErrMsg t n :: prev.2)

/-- Embedding of `Orchestrator._handle_tool_calls`: parse all marker blocks of the
assistant content and produce `(tool_calls_found, tool_results_for_history)`. -/
def handleToolCalls (s : List Char) : List (ToolCallData A) × List (Msg A) :=
  htcAux decode known execTool (findBlocks s) 0

end Handle

/-! ### Wire rendering (`Orchestrator._get_llm_response`, payload assembly) -/

/-- The fixed opening of the tool-response envelope (the f-string
`"<tool_response>\n" + s.strip() + "\n</tool_response>"`). -/
def treOpen : List Char := "<tool_response>\n".data

/-- The fixed closing of the tool-response envelope. -/
def treClose : List Char := "\n</tool_response>".data

/-- Wire content of a stored tool message: append a period when the content
is non-empty and its stripped form does not already end in one, then wrap the
stripped text in the tool-response envelope. -/
def toolWireContent (c : List Char) : List Char :=
  let t := if c ≠ [] ∧ endsWithDot (pyStrip c) = false then c ++ ['.'] else c
  treOpen ++ pyStrip t ++ treClose

/-- Per-message translation of the payload loop: tool messages become
user-role envelope messages, assistant and user messages keep role and
content, any other role is skipped. -/
def renderMsg (m : Msg A) : Option (Msg A) :=
  if m.role = toolRole then some ⟨userRole, toolWireContent m.content, none, none, []⟩
  else if m.role = asstRole then some ⟨asstRole, m.content, none, none, []⟩
  else if m.role = userRole then some ⟨userRole, m.content, none, none, []⟩
  else none

/-- Name tag of the injected memory-synthesis system message. -/
def msNameText : List Char := "memory_synthesis".data

/-- Fixed text before the injected synthesized context. -/
def hintPre : List Char :=
  ("HINT: The following synthesized memory context may be relevant to the user's query:\n" ++
    "<synthesized_context>\n").data

/-- Fixed text after the injected synthesized context. -/
def hintPost : List Char :=
  ("\n</synthesized_context>\n" ++
    "Remember to critically evaluate this hint alongside other information and tools.").data

/-- The optional `memory_synthesis` system message injected into the prompt. -/
def memSynthMsg (ctx : List Char) : Msg A :=
  ⟨sysRole, hintPre ++ pyStrip ctx ++ hintPost, some msNameText, none, []⟩

/-- Assembly of `api_payload_messages` in `_get_llm_response`: fresh system
prompt, optional memory-synthesis hint, then the pruned history (minus a
leading stored system message) rendered message by message. -/
def buildApiPayload (sysPrompt : List Char) (msgs : List (Msg A)) (ctx : List Char) :
    List (Msg A) :=
  let pruned := pruneForApi msgs
  let base : List (Msg A) :=
    ⟨sysRole, sysPrompt, none, none, []⟩ ::
      (if ctx ≠ [] ∧ pyStrip ctx ≠ [] then [memSynthMsg ctx] else [])
  let start :=
    match pruned.head? with
    | some h => if h.role = sysRole then 1 else 0
    | none => 0
  base ++ (pruned.drop start).filterMap renderMsg

/-! ### Memory-reasoning synthesis post-processing
(`Orchestrator._invoke_memory_reasoning_llm`, lines 550-560 and the final
`return final_synthesis.strip()`) -/

/-- The diagnostic replacement of the safety check. -/
def diagText : List Char :=
  "[Memory reasoning process concluded with an unprocessed tool call instead of a textual summary.]".data

/-- The reserved sentinel phrase meaning "no relevant memory found". -/
def sentinelText : List Char :=
  "No specific memory context deemed necessary or found.".data

/-- Post-processing of the sub-loop's final synthesis: the (DEBUG-gated)
safety replacement, the sentinel check, the emptiness check, and the final
strip, exactly as in lines 550-586 of the source. -/
def postProcessSynthesis (debug : Bool) (fs : List Char) : List Char :=
  let fs1 := if fs ≠ [] ∧ hasToolCall fs = true ∧ debug = true then diagText else fs
  if containsSub sentinelText fs1 = true then []
  else if pyStrip fs1 = [] then []
  else pyStrip fs1

/-! ### Final-answer cleaning (`Orchestrator.chat`, lines 363-380) -/

/-- Provider control token `<|im_end|>`. -/
def imEndTok : List Char := "<|im_end|>".data

/-- Provider control token `<|im_start|>`. -/
def imStartTok : List Char := "<|im_start|>".data

/-- The code's cleaning of the chosen final text (before `html.unescape`):
keep only what follows the last `</think>` (left-stripped); otherwise, for an
unterminated `<think>`, become empty when the stripped text starts with the
marker, else keep the right-stripped text before it; then delete tool-call
blocks and the provider control tokens and strip. -/
def cleanCore (s : List Char) : List Char :=
  let t1 :=
    match rfindAfter thinkCloseTag s with
    | some post => pyLStrip post
    | none =>
      match firstSplit thinkOpenTag s with
      | none => s
      | some p =>
        if listStartsWith thinkOpenTag (pyStrip s) then [] else pyRStrip p.1
  let t2 := removeToolCalls t1
  let t3 := removeAllSub imEndTok t2
  let t4 := removeAllSub imStartTok t3
  pyStrip t4

/-- Modelled from the spec: the claim C7 text-cleaning rule, stated exactly as
written — keep only text after the last closing reasoning marker; otherwise,
if an opening marker exists with no closing marker, discard everything from
that marker onward (empty when the marker starts the text); then remove the
remaining tool-call-marker-delimited substrings.  Used only to compare the
claimed rule with the code's `cleanCore`. -/
def specCleanRule (s : List Char) : List Char :=
  let t1 :=
    match rfindAfter thinkCloseTag s with
    | some post => post
    | none =>
      match firstSplit thinkOpenTag s with
      | none => s
      | some p => if listStartsWith thinkOpenTag s then [] else p.1
  removeToolCalls t1

/-! ### The main loop (`Orchestrator.chat`) -/

/-- Result of one `chat` turn: the canonical history at exit, the text
returned to the caller, and the number of LLM generations performed. -/
structure ChatResult (A : Type) where
  history : List (Msg A)
  text : List Char
  gens : Nat
deriving DecidableEq, Repr

section Chat

variable {A : Type} (decode : List Char → Option (ToolCallData A))
variable (known : List Char → Bool) (execTool : List Char → A → List Char)
variable (oracle : List (Msg A) → List Char × List Char)
variable (unescape : List Char → List Char) (sysPrompt : List Char)

/-- Embedding of `_get_llm_response` with the HTTP call and the provider's reasoning-field
merge abstracted into `oracle`: the payload is assembled and the oracle
returns the pair (text for history, content for tool parsing). -/
def getLlm (msgs : List (Msg A)) (ctx : List Char) : List Char × List Char :=
  oracle (buildApiPayload sysPrompt msgs ctx)

/-- The `for iteration in range(MAX_TOOL_ITERATIONS)` loop of `chat`.  The
fuel is the remaining iteration budget; `resp` is the current LLM response
pair and `gens` the number of generations so far.  When the budget is
exhausted the Python for-else branch only logs a warning, leaving
`final_llm_output_for_user_processing` at its initial value `""`. -/
def toolLoop (maxHist : Nat) (ctx : List Char) :
    Nat → List (Msg A) → List Char × List Char → Nat → ChatResult A
  | 0, hist, _, gens => ⟨hist, [], gens⟩
  | fuel + 1, hist, resp, gens =>
    let parsed := handleToolCalls decode known execTool resp.2
    let hist1 := hist ++ [⟨asstRole, resp.1, none, none, parsed.1⟩]
    if parsed.2.isEmpty then ⟨hist1, resp.1, gens⟩
    else
      let hist2 := hist1 ++ parsed.2
      let hist3 := dispatchPrune maxHist parsed.2.length hist2
      toolLoop maxHist ctx fuel hist3
        (getLlm oracle sysPrompt hist3 ctx) (gens + 1)

/-- Embedding of `Orchestrator.chat`: append the user message, apply the between-turn
prune, run the tool loop from the initial generation, clean the chosen final
text and unescape HTML entities.  `ctx` is the synthesized memory context
produced beforehand, `cap` is `MAX_TOOL_ITERATIONS`. -/
def chat (maxHist cap : Nat) (baseMsgs : List (Msg A)) (userInput ctx : List Char) :
    ChatResult A :=
  let msgs1 := baseMsgs ++ [⟨userRole, userInput, none, none, []⟩]
  let msgs2 := betweenTurnPrune maxHist msgs1
  let r0 := getLlm oracle sysPrompt msgs2 ctx
  let res := toolLoop decode known execTool oracle sysPrompt maxHist ctx cap msgs2 r0 1
  ⟨res.history, unescape (cleanCore res.text), res.gens⟩

end Chat

/-! ### Derived forms used in the statements and proofs -/

section HandleSpec

variable {A : Type} (decode : List Char → Option (ToolCallData A))
variable (known : List Char → Bool) (execTool : List Char → A → List Char)

/-- The tool-result message `_handle_tool_calls` records for the match at
index `n` with captured group `inner` (dispatch result or parse error). -/
def resultMsgFor (n : Nat) (inner : List Char) : Msg A :=
  let t := pyStrip inner
  match decode t with
  | some d => validResultMsg known execTool d t
  | none => parseErrMsg t n

/-- The full list of tool-result messages for the matches `l`, the first of
which has match index `n`. -/
def resultsFor : List (List Char) → Nat → List (Msg A)
  | [], _ => []
  | b :: rest, n => resultMsgFor decode known execTool n b :: resultsFor rest (n + 1)

end HandleSpec

/-! ### Concrete fixtures for witnesses and counterexamples -/

/-- Stripped inner JSON text of the fixture tool call. -/
def innerT : List Char := "\x7b\"name\": \"t\", \"arguments\": \x7b\x7d\x7d".data

/-- A concrete JSON decoder for the fixtures: accepts exactly the two inner
texts used by the fixture responses. -/
def decodeStub : List Char → Option (ToolCallData Unit) := fun t =>
  if t = innerT then some ⟨some "t".data, none, ()⟩
  else if t = "\x7b\"name\": \"g\"\x7d".data then some ⟨some "g".data, none, ()⟩
  else none

/-- Fixture registry: the tools named `t` and `g` are registered. -/
def knownStub : List Char → Bool := fun n =>
  decide (n = "t".data) || decide (n = "g".data)

/-- Fixture tool execution. -/
def execStub : List Char → Unit → List Char := fun _ _ => "ok".data

/-- Fixture: `html.unescape` on entity-free text is the identity. -/
def idUnescape : List Char → List Char := fun s => s

/-- Fixture system prompt. -/
def sysPromptStub : List Char := "sys".data

/-- Fixture stored system message. -/
def sysMsg0 : Msg Unit := ⟨sysRole, "base".data, none, none, []⟩

/-- Fixture LLM response that always requests a tool call and also carries
prose text. -/
def c1RespText : List Char :=
  "Working on it <tool_call>".data ++ innerT ++ "</tool_call>".data

/-- Fixture LLM that replies with `c1RespText` on every call. -/
def oracleC1 : List (Msg Unit) → List Char × List Char := fun _ => (c1RespText, c1RespText)

/-- Fixture final synthesis that is nothing but a raw tool call. -/
def c2bad : List Char := "<tool_call>\x7b\"name\": \"x\"\x7d</tool_call>".data

/-- Fixture text with two well-formed marker blocks around one malformed one. -/
def c4text : List Char :=
  "a<tool_call> ".data ++ innerT ++ " </tool_call>b<tool_call>BAD</tool_call>c<tool_call>\x7b\"name\": \"g\"\x7d</tool_call>d".data

/-- Fixture history for the pruning claims: a past turn, an assistant reply
with a reasoning block, a tool exchange, and a fresh genuine user message. -/
def c5hist : List (Msg Unit) :=
  [⟨userRole, "hi".data, none, none, []⟩,
   ⟨asstRole, "<think>plan</think> hello".data, none, none, []⟩,
   ⟨toolRole, "ok".data, some "t".data, some "t".data, []⟩,
   ⟨userRole, "<tool_response>\nok.\n</tool_response>".data, none, none, []⟩,
   ⟨userRole, "next question".data, none, none, []⟩,
   ⟨asstRole, "<think>now</think> sure".data, none, none, []⟩]

/-- Fixture history whose assistant content re-forms a reasoning block after
one substitution pass (`<thi` + `nk>y</think>` around a removed inner block). -/
def c6hist : List (Msg Unit) :=
  [⟨userRole, "hi".data, none, none, []⟩,
   ⟨asstRole, "<thi<think>x</think>nk>y</think>".data, none, none, []⟩,
   ⟨userRole, "q".data, none, none, []⟩]

/-- Fixture first response with no tool calls but a provider control token. -/
def c7cexText : List Char := "answer <|im_end|>".data

/-- Fixture LLM replying with `c7cexText` once (and always). -/
def oracleC7 : List (Msg Unit) → List Char × List Char := fun _ => (c7cexText, c7cexText)

/-- Fixture LLM replying with plain prose. -/
def oracleAnswer : List (Msg Unit) → List Char × List Char := fun _ => ("4".data, "4".data)

/-- Fixture synthesis containing both a raw tool-call block and the sentinel. -/
def c8cex : List Char :=
  "<tool_call>\x7b\"name\": \"x\"\x7d</tool_call> ".data ++ sentinelText

/-- Fixture stored tool-result content ending in a period plus whitespace. -/
def c10cex : List Char := "done. ".data

/-- Fixture stored tool message. -/
def toolMsg0 : Msg Unit := ⟨toolRole, "sunny".data, some "t".data, some "t".data, []⟩

/-- Fixture history whose single completed-turn assistant message prunes
cleanly (no residual reasoning block after one substitution pass). -/
def c6whist : List (Msg Unit) :=
  [⟨userRole, "hi".data, none, none, []⟩,
   ⟨asstRole, "<think>plan</think> ok".data, none, none, []⟩,
   ⟨userRole, "q".data, none, none, []⟩]

/-! ## Helper lemmas -/

/-- Shape of both length prunes: keeping the first message plus the last `b`
ones yields exactly `b + 1` messages and preserves the head. -/
theorem prune_core {α : Type} (b : Nat) (hb : b ≠ 0) (l : List α)
    (h : b + 1 < l.length) :
    (l.take 1 ++ pyLastSlice b l).length = b + 1 ∧
      (l.take 1 ++ pyLastSlice b l).head? = l.head? := by
  obtain ⟨x, t, rfl⟩ : ∃ x t, l = x :: t := by
    cases l with
    | nil => simp at h
    | cons x t => exact ⟨x, t, rfl⟩
  constructor
  · simp only [pyLastSlice, if_neg hb, List.length_append, List.length_take,
      List.length_drop, List.length_cons] at h ⊢
    omega
  · simp

/-- Element lookup through the indexed map of the pruning loop. -/
theorem mapWithIdx_get? {A : Type} (f : Nat → Msg A → Msg A) :
    ∀ (l : List (Msg A)) (n i : Nat),
      (mapWithIdx f n l).get? i = (l.get? i).map fun m => f (n + i) m := by
  intro l
  induction l with
  | nil => intro n i; rfl
  | cons m t ih =>
    intro n i
    cases i with
    | zero => simp [mapWithIdx]
    | succ j =>
      rw [show n + (j + 1) = n + 1 + j from by omega]
      simpa [mapWithIdx] using ih (n + 1) j

/-- The indexed map preserves length. -/
theorem mapWithIdx_length {A : Type} (f : Nat → Msg A → Msg A) :
    ∀ (l : List (Msg A)) (n : Nat), (mapWithIdx f n l).length = l.length := by
  intro l
  induction l with
  | nil => intro n; rfl
  | cons m t ih => intro n; simp [mapWithIdx, ih (n + 1)]

/-- The first element surviving `dropWhile` does not satisfy the predicate. -/
theorem head_not_space : ∀ (l : List Char) (a : Char) (t : List Char),
    List.dropWhile pySpace l = a :: t → pySpace a = false := by
  intro l
  induction l with
  | nil => intro a t h; simp [List.dropWhile] at h
  | cons c cs ih =>
    intro a t h
    cases hc : pySpace c with
    | false =>
      simp [List.dropWhile_cons, hc] at h
      rw [← h.1]; exact hc
    | true =>
      simp [List.dropWhile_cons, hc] at h
      exact ih a t h

/-- Left-stripping after right-stripping an already left-stripped list is a
no-op: the head survives right-stripping and is not whitespace. -/
theorem dropWhile_rdropWhile_dropWhile (m : List Char) :
    List.dropWhile pySpace (List.rdropWhile pySpace (List.dropWhile pySpace m)) =
      List.rdropWhile pySpace (List.dropWhile pySpace m) := by
  rcases hr : List.rdropWhile pySpace (List.dropWhile pySpace m) with _ | ⟨a, rs⟩
  · simp
  · obtain ⟨t, ht⟩ := List.rdropWhile_prefix pySpace (List.dropWhile pySpace m)
    rw [hr] at ht
    have hm : List.dropWhile pySpace m = a :: (rs ++ t) := by
      rw [← ht]; rfl
    have ha : pySpace a = false := head_not_space m a (rs ++ t) hm
    simp [List.dropWhile_cons, ha]

/-- Python `strip` is idempotent. -/
theorem pyStrip_idem (s : List Char) : pyStrip (pyStrip s) = pyStrip s := by
  have e : ∀ l : List Char, pyRStrip l = List.rdropWhile pySpace l := fun _ => rfl
  show pyRStrip (pyLStrip (pyRStrip (pyLStrip s))) = pyRStrip (pyLStrip s)
  simp only [e]
  show List.rdropWhile pySpace
      (List.dropWhile pySpace (List.rdropWhile pySpace (List.dropWhile pySpace s))) = _
  rw [dropWhile_rdropWhile_dropWhile, List.rdropWhile_idempotent]
  rfl

/-- The think-block substitution is the identity on texts with no match. -/
theorem removeThink_eq_self (s : List Char) (h : hasThinkMatch s = false) :
    removeThink s = s := by
  unfold removeThink
  unfold hasThinkMatch at h
  rcases h1 : firstSplit thinkOpenTag s with _ | p
  · simp [removeThinkF, h1]
  · rw [h1] at h
    have h' : (firstSplit thinkCloseTag p.2).isSome = false := h
    have h2 : firstSplit thinkCloseTag p.2 = none := by
      rcases h3 : firstSplit thinkCloseTag p.2 with _ | q
      · rfl
      · rw [h3] at h'; simp at h'
    simp [removeThinkF, h1, h2]

/-- The pruning loop body never changes whether a message is a genuine user
message (it only rewrites assistant contents). -/
theorem isTrueUser_pruneMsg {A : Type} (k i : Nat) (m : Msg A) :
    isTrueUser (pruneMsg k i m) = isTrueUser m := by
  unfold pruneMsg
  split
  · rename_i h
    unfold isTrueUser
    simp only [h.1]
    have : decide (asstRole = userRole) = false := by decide
    simp [this]
  · rfl

/-- The indexed map preserves the last genuine user index when the body
preserves genuineness pointwise. -/
theorem lastTrueUserIdx_mapWithIdx {A : Type} (f : Nat → Msg A → Msg A)
    (hf : ∀ i m, isTrueUser (f i m) = isTrueUser m) :
    ∀ (l : List (Msg A)) (n : Nat), lastTrueUserIdx (mapWithIdx f n l) = lastTrueUserIdx l := by
  intro l
  induction l with
  | nil => intro n; rfl
  | cons m t ih =>
    intro n
    rcases h : lastTrueUserIdx t with _ | k <;>
      simp [mapWithIdx, lastTrueUserIdx, ih (n + 1), h, hf n m]

/-- Transmission pruning preserves the last genuine user index. -/
theorem lastTrueUserIdx_pruneForApi {A : Type} (msgs : List (Msg A)) :
    lastTrueUserIdx (pruneForApi msgs) = lastTrueUserIdx msgs := by
  unfold pruneForApi
  rcases h : lastTrueUserIdx msgs with _ | k
  · exact h
  · show lastTrueUserIdx (mapWithIdx (pruneMsg k) 0 msgs) = some k
    rw [lastTrueUserIdx_mapWithIdx _ (fun i m => isTrueUser_pruneMsg k i m)]
    exact h

section HandleLemmas

variable {A : Type} (decode : List Char → Option (ToolCallData A))
variable (known : List Char → Bool) (execTool : List Char → A → List Char)

/-- Characterisation of the `_handle_tool_calls` loop: the requests are the
successful decodings of the blocks in order, and there is exactly one result
message per block, indexed from `n`. -/
theorem htcAux_eq : ∀ (l : List (List Char)) (n : Nat),
    htcAux decode known execTool l n =
      (l.filterMap (fun b => decode (pyStrip b)), resultsFor decode known execTool l n) := by
  intro l
  induction l with
  | nil => intro n; rfl
  | cons b rest ih =>
    intro n
    show (match decode (pyStrip b) with
      | some d => (d :: (htcAux decode known execTool rest (n + 1)).1,
          validResultMsg known execTool d (pyStrip b) ::
            (htcAux decode known execTool rest (n + 1)).2)
      | none => ((htcAux decode known execTool rest (n + 1)).1,
          parseErrMsg (pyStrip b) n :: (htcAux decode known execTool rest (n + 1)).2)) = _
    rcases hd : decode (pyStrip b) with _ | d <;>
      simp [ih (n + 1), resultsFor, resultMsgFor, List.filterMap_cons, hd]

/-- One result message per block. -/
theorem resultsFor_length : ∀ (l : List (List Char)) (n : Nat),
    (resultsFor decode known execTool l n).length = l.length := by
  intro l
  induction l with
  | nil => intro n; rfl
  | cons b rest ih => intro n; simp [resultsFor, ih (n + 1)]

/-- Result lookup: the result at position `i` is the dispatch or parse-error
message of the block at position `i`. -/
theorem resultsFor_get? : ∀ (l : List (List Char)) (n i : Nat),
    (resultsFor decode known execTool l n).get? i =
      (l.get? i).map fun b => resultMsgFor decode known execTool (n + i) b := by
  intro l
  induction l with
  | nil => intro n i; rfl
  | cons b rest ih =>
    intro n i
    cases i with
    | zero => simp [resultsFor]
    | succ j =>
      rw [show n + (j + 1) = n + 1 + j from by omega]
      simpa [resultsFor] using ih (n + 1) j

/-- A `filterMap` preserves length when every element decodes. -/
theorem filterMap_length_all_some {α β : Type} (f : α → Option β) :
    ∀ l : List α, (∀ a ∈ l, (f a).isSome) → (l.filterMap f).length = l.length := by
  intro l
  induction l with
  | nil => intro _; rfl
  | cons a rest ih =>
    intro h
    obtain ⟨v, hv⟩ := Option.isSome_iff_exists.mp (h a (by simp))
    simp [List.filterMap_cons, hv, ih fun a ha => h a (by simp [ha])]

end HandleLemmas

/-- The function `renderMsg` never outputs a `name` tag. -/
theorem renderMsg_name_none {A : Type} (m p : Msg A) (h : renderMsg m = some p) :
    p.name = none := by
  unfold renderMsg at h
  split at h
  · cases h; rfl
  · split at h
    · cases h; rfl
    · split at h
      · cases h; rfl
      · cases h

/-- The function `renderMsg` never outputs the `tool` role: everything on the wire is
`system`, `user` or `assistant`. -/
theorem renderMsg_role_ne_tool {A : Type} (m p : Msg A) (h : renderMsg m = some p) :
    p.role ≠ toolRole := by
  unfold renderMsg at h
  split at h
  · cases h; show userRole ≠ toolRole; decide
  · split at h
    · cases h; show asstRole ≠ toolRole; decide
    · split at h
      · cases h; show userRole ≠ toolRole; decide
      · cases h

/-- Unfolding of `pruneForApi` when no genuine user message exists. -/
theorem pruneForApi_none {A : Type} (l : List (Msg A)) (h : lastTrueUserIdx l = none) :
    pruneForApi l = l := by
  unfold pruneForApi
  rw [h]

/-- Unfolding of `pruneForApi` when the last genuine user index is `k`. -/
theorem pruneForApi_some {A : Type} (l : List (Msg A)) (k : Nat)
    (h : lastTrueUserIdx l = some k) :
    pruneForApi l = mapWithIdx (pruneMsg k) 0 l := by
  unfold pruneForApi
  rw [h]

/-! ## Claims -/

/-- C2: the safety check of the memory-reasoning sub-loop is gated on the
DEBUG flag.  With DEBUG off (the default), a final synthesis consisting of a
raw tool-call marker block is returned verbatim to the primary LLM instead of
being replaced by the fixed diagnostic string; with DEBUG on it is replaced.
This contradicts the spec's unconditional safety check (a code bug in
`_invoke_memory_reasoning_llm`: the replacement sits inside `and DEBUG`). -/
theorem c2_debug_gated_safety :
    postProcessSynthesis false c2bad = c2bad ∧
    hasToolCall (postProcessSynthesis false c2bad) = true ∧
    postProcessSynthesis true c2bad = diagText := by
  decide

/-- C3: after the between-turn prune the canonical history has at most
`2*max_history_pairs + 1` messages and keeps its head (hence index 0 stays
the system message), and the turn-specific prune applied during tool dispatch
enforces the analogous bound `3*max_history_pairs + 1 + k`. -/
theorem c3_history_bound {A : Type} (m k : Nat) (hm : 0 < m) (msgs : List (Msg A)) :
    (betweenTurnPrune m msgs).length ≤ 2 * m + 1 ∧
    (betweenTurnPrune m msgs).head? = msgs.head? ∧
    (dispatchPrune m k msgs).length ≤ 3 * m + 1 + k ∧
    (dispatchPrune m k msgs).head? = msgs.head? := by
  refine ⟨?_, ?_, ?_, ?_⟩
  · unfold betweenTurnPrune
    split
    · rename_i h
      exact le_of_eq (prune_core (2 * m) (by omega) msgs (by omega)).1
    · rename_i h; omega
  · unfold betweenTurnPrune
    split
    · rename_i h
      exact (prune_core (2 * m) (by omega) msgs (by omega)).2
    · rfl
  · unfold dispatchPrune
    split
    · rename_i h
      have := (prune_core (3 * m + k) (by omega) msgs (by omega)).1
      omega
    · rename_i h; omega
  · unfold dispatchPrune
    split
    · rename_i h
      exact (prune_core (3 * m + k) (by omega) msgs (by omega)).2
    · rfl

/-- Witness for C3 at the configured `MAX_HISTORY_PAIRS = 15` on a concrete
history. -/
theorem c3_history_bound_witness :
    0 < 15 ∧
    ((betweenTurnPrune 15 c5hist).length ≤ 2 * 15 + 1 ∧
     (betweenTurnPrune 15 c5hist).head? = c5hist.head? ∧
     (dispatchPrune 15 2 c5hist).length ≤ 3 * 15 + 1 + 2 ∧
     (dispatchPrune 15 2 c5hist).head? = c5hist.head?) :=
  ⟨by decide, c3_history_bound 15 2 (by decide) c5hist⟩

/-- C9: no message transmitted to the LLM ever carries the `tool` role; a
stored tool-result message is rendered as a `user`-role message whose content
is the fixed tool-response envelope; and the canonical stored tool message is
untouched even in the pruned copy (the pure embedding cannot mutate the
canonical log at all). -/
theorem c9_tool_role_wire {A : Type} (sysPrompt ctx : List Char) (msgs : List (Msg A)) :
    (∀ p ∈ buildApiPayload sysPrompt msgs ctx, p.role ≠ toolRole) ∧
    (∀ m : Msg A, m.role = toolRole →
      renderMsg m = some ⟨userRole, toolWireContent m.content, none, none, []⟩) ∧
    (∀ i (m' : Msg A), msgs.get? i = some m' → m'.role = toolRole →
      (pruneForApi msgs).get? i = some m') := by
  refine ⟨?_, ?_, ?_⟩
  · intro p hp
    unfold buildApiPayload at hp
    simp only [List.mem_append, List.mem_cons] at hp
    rcases hp with (rfl | hp) | hp
    · show sysRole ≠ toolRole; decide
    · split at hp
      · simp only [List.mem_singleton] at hp
        subst hp
        show sysRole ≠ toolRole; decide
      · simp at hp
    · obtain ⟨m, _, hr⟩ := List.mem_filterMap.mp hp
      exact renderMsg_role_ne_tool m p hr
  · intro m h
    unfold renderMsg
    rw [if_pos h]
  · intro i m' hg hrole
    unfold pruneForApi
    rcases hk : lastTrueUserIdx msgs with _ | k
    · exact hg
    · show (mapWithIdx (pruneMsg k) 0 msgs).get? i = some m'
      rw [mapWithIdx_get?, hg]
      show some (pruneMsg k (0 + i) m') = some m'
      unfold pruneMsg
      rw [if_neg]
      rintro ⟨h1, _⟩
      rw [hrole] at h1
      exact absurd h1 (by decide)

/-- Witness for C9: the fixture tool message renders as a user-role envelope
message. -/
theorem c9_tool_role_wire_witness :
    renderMsg toolMsg0 =
      some ⟨userRole, toolWireContent toolMsg0.content, none, none, []⟩ :=
  (c9_tool_role_wire sysPromptStub [] [toolMsg0]).2.1 toolMsg0 (by decide)

/-- C10 counterexample: the claim says a period is appended whenever the
stored content is non-empty and does not end with a period, but for
`"done. "` (which ends in a space, not a period) the code appends nothing,
because the check is made on the whitespace-stripped content. -/
theorem c10_counterexample :
    c10cex ≠ [] ∧ endsWithDot c10cex = false ∧
    toolWireContent c10cex ≠ treOpen ++ pyStrip (c10cex ++ ['.']) ++ treClose := by
  decide

/-- C10 amended: a period is appended when the stored content is non-empty
and its whitespace-stripped form does not end with a period; consequently the
transmitted tool-result text is not always character-identical to the stored
one (second conjunct). -/
theorem c10_period_append_amended :
    (∀ c : List Char, c ≠ [] → endsWithDot (pyStrip c) = false →
      toolWireContent c = treOpen ++ pyStrip (c ++ ['.']) ++ treClose) ∧
    toolWireContent "ok".data ≠ treOpen ++ "ok".data ++ treClose := by
  constructor
  · intro c h1 h2
    unfold toolWireContent
    rw [if_pos ⟨h1, h2⟩]
  · decide

/-- Witness for C10 amended at a concrete non-period-terminated content. -/
theorem c10_period_append_amended_witness :
    toolWireContent "sunny".data =
      treOpen ++ pyStrip ("sunny".data ++ ['.']) ++ treClose :=
  c10_period_append_amended.1 "sunny".data (by decide) (by decide)

/-- C8 counterexample: a final synthesis that contains the sentinel phrase
but also a raw tool-call block is, with DEBUG on, replaced by the diagnostic
string by the safety check (which runs before the sentinel check), so the
synthesized context is NOT the empty string. -/
theorem c8_counterexample :
    containsSub sentinelText c8cex = true ∧
    postProcessSynthesis true c8cex = diagText ∧
    diagText ≠ [] := by
  decide

/-- C8 amended: whenever the final synthesis contains the sentinel phrase and
is not first replaced by the safety check (DEBUG off, or no unprocessed
tool-call marker present), the synthesized context is the empty string and
the transmitted prompt carries no `memory_synthesis` system message. -/
theorem c8_sentinel_amended {A : Type} (debug : Bool) (fs sysPrompt : List Char)
    (msgs : List (Msg A))
    (hs : containsSub sentinelText fs = true)
    (hg : debug = false ∨ hasToolCall fs = false) :
    postProcessSynthesis debug fs = [] ∧
    ∀ p ∈ buildApiPayload sysPrompt msgs (postProcessSynthesis debug fs),
      p.name ≠ some msNameText := by
  have hfs1 : (if fs ≠ [] ∧ hasToolCall fs = true ∧ debug = true then diagText else fs) = fs := by
    rw [if_neg]
    rintro ⟨_, h2, h3⟩
    rcases hg with h | h
    · rw [h] at h3; cases h3
    · rw [h] at h2; cases h2
  have hpp : postProcessSynthesis debug fs = [] := by
    unfold postProcessSynthesis
    rw [hfs1, if_pos hs]
  refine ⟨hpp, ?_⟩
  rw [hpp]
  intro p hp
  unfold buildApiPayload at hp
  simp only [List.mem_append, List.mem_cons] at hp
  rcases hp with (rfl | hp) | hp
  · simp
  · rw [if_neg (by simp)] at hp
    simp at hp
  · obtain ⟨m, _, hr⟩ := List.mem_filterMap.mp hp
    rw [renderMsg_name_none m p hr]
    simp

/-- Witness for C8 amended: the exact sentinel phrase with DEBUG off yields
the empty context. -/
theorem c8_sentinel_amended_witness :
    postProcessSynthesis false sentinelText = [] :=
  (c8_sentinel_amended false sentinelText sysPromptStub ([] : List (Msg Unit))
    (by decide) (Or.inl rfl)).1

/-- C5: transmission pruning is a no-op when no genuine user message exists;
otherwise it preserves length, leaves every message at or after the last
genuine user index untouched, leaves non-assistant messages before it
untouched, and replaces the content of assistant messages before it by the
stripped think-block-free content while preserving every other field.  The
canonical log itself cannot change in this pure embedding: the function
builds a fresh list of per-message copies. -/
theorem c5_prune_transmission {A : Type} (msgs : List (Msg A)) :
    (lastTrueUserIdx msgs = none → pruneForApi msgs = msgs) ∧
    ∀ k, lastTrueUserIdx msgs = some k →
      (pruneForApi msgs).length = msgs.length ∧
      (∀ i (m : Msg A), msgs.get? i = some m → k ≤ i →
        (pruneForApi msgs).get? i = some m) ∧
      (∀ i (m : Msg A), msgs.get? i = some m → i < k → m.role ≠ asstRole →
        (pruneForApi msgs).get? i = some m) ∧
      (∀ i (m : Msg A), msgs.get? i = some m → i < k → m.role = asstRole →
        (pruneForApi msgs).get? i =
          some ⟨m.role, pyStrip (removeThink m.content), m.name,
            m.tool_call_id, m.toolCalls⟩) := by
  constructor
  · exact pruneForApi_none msgs
  · intro k hk
    have hp := pruneForApi_some msgs k hk
    refine ⟨?_, ?_, ?_, ?_⟩
    · rw [hp, mapWithIdx_length]
    · intro i m hg hik
      rw [hp, mapWithIdx_get?, hg]
      show some (pruneMsg k (0 + i) m) = some m
      unfold pruneMsg
      rw [if_neg]
      rintro ⟨_, hlt⟩
      omega
    · intro i m hg _ hrole
      rw [hp, mapWithIdx_get?, hg]
      show some (pruneMsg k (0 + i) m) = some m
      unfold pruneMsg
      rw [if_neg]
      rintro ⟨h1, _⟩
      exact hrole h1
    · intro i m hg hik hrole
      rw [hp, mapWithIdx_get?, hg]
      show some (pruneMsg k (0 + i) m) = some _
      unfold pruneMsg
      rw [if_pos ⟨hrole, by omega⟩]

/-- Witness for C5: in the fixture history the assistant message of the
completed turn (index 1, before the genuine user message at index 4) has its
reasoning block removed. -/
theorem c5_prune_transmission_witness :
    (pruneForApi c5hist).get? 1 =
      some ⟨asstRole, pyStrip (removeThink "<think>plan</think> hello".data),
        none, none, []⟩ :=
  ((c5_prune_transmission c5hist).2 4 (by decide)).2.2.2 1
    ⟨asstRole, "<think>plan</think> hello".data, none, none, []⟩
    (by decide) (by decide) (by decide)

/-- C6 counterexample: pruning is NOT idempotent.  In the fixture history the
assistant content `<thi<think>x</think>nk>y</think>` turns, after one
substitution pass, into `<think>y</think>` — a fresh reasoning block formed
by concatenation — which a second prune removes entirely, even though the
last genuine user index is unchanged. -/
theorem c6_counterexample :
    lastTrueUserIdx (pruneForApi c6hist) = lastTrueUserIdx c6hist ∧
    pruneForApi (pruneForApi c6hist) ≠ pruneForApi c6hist := by
  decide

/-- C6 amended: pruning an already-pruned history (same last genuine user
index) is a no-op provided no pruned assistant content before that index
still contains a reasoning-block match (i.e. provided the single substitution
pass actually removed all reasoning blocks, which can only fail when removal
forms a new marker pair by concatenation). -/
theorem c6_idempotent_amended {A : Type} (msgs : List (Msg A))
    (h : ∀ k, lastTrueUserIdx msgs = some k → ∀ i (m : Msg A), i < k →
      (pruneForApi msgs).get? i = some m → m.role = asstRole →
      hasThinkMatch m.content = false) :
    pruneForApi (pruneForApi msgs) = pruneForApi msgs := by
  rcases hk : lastTrueUserIdx msgs with _ | k
  · have e := pruneForApi_none msgs hk
    rw [e]
    exact e
  · have hk2 : lastTrueUserIdx (pruneForApi msgs) = some k := by
      rw [lastTrueUserIdx_pruneForApi]
      exact hk
    rw [pruneForApi_some _ k hk2]
    apply List.ext_get?
    intro i
    rw [mapWithIdx_get?]
    rcases hgi : (pruneForApi msgs).get? i with _ | m
    · rfl
    · show some (pruneMsg k (0 + i) m) = some m
      by_cases hik : i < k
      · by_cases hrole : m.role = asstRole
        · have hnm := h k hk i m hik hgi hrole
          obtain ⟨m0, hm0, hm⟩ : ∃ m0, msgs.get? i = some m0 ∧ m = pruneMsg k (0 + i) m0 := by
            have h2 := hgi
            rw [pruneForApi_some msgs k hk, mapWithIdx_get?] at h2
            rcases hg0 : msgs.get? i with _ | m0
            · rw [hg0] at h2; cases h2
            · rw [hg0] at h2
              exact ⟨m0, rfl, (Option.some.inj h2).symm⟩
          have hcond : m0.role = asstRole ∧ 0 + i < k := by
            constructor
            · have hroleeq : m.role = m0.role := by
                rw [hm]; unfold pruneMsg; split <;> rfl
              rw [← hroleeq]
              exact hrole
            · omega
          have hcontent : pyStrip m.content = m.content := by
            rw [hm]
            unfold pruneMsg
            rw [if_pos hcond]
            exact pyStrip_idem _
          unfold pruneMsg
          rw [if_pos ⟨hrole, by omega⟩, removeThink_eq_self m.content hnm, hcontent]
        · unfold pruneMsg
          rw [if_neg]
          rintro ⟨h1, _⟩
          exact hrole h1
      · unfold pruneMsg
        rw [if_neg]
        rintro ⟨_, h2⟩
        omega

/-- Witness for C6 amended on the fixture history whose single pruned
assistant content contains no residual reasoning block. -/
theorem c6_idempotent_amended_witness :
    pruneForApi (pruneForApi c6whist) = pruneForApi c6whist :=
  c6_idempotent_amended c6whist (by
    intro k hk i m hik hgi hrole
    rw [show lastTrueUserIdx c6whist = some 2 from by decide] at hk
    obtain rfl : k = 2 := (Option.some.inj hk).symm
    rw [show pruneForApi c6whist =
      [⟨userRole, "hi".data, none, none, []⟩,
       ⟨asstRole, "ok".data, none, none, []⟩,
       ⟨userRole, "q".data, none, none, []⟩] from by decide] at hgi
    interval_cases i <;> cases hgi <;> revert hrole <;> decide)

/-- C4: the parser yields no request for marker-free text; with all blocks
well-formed (w.r.t. the JSON decoder) it yields exactly one request per block,
in document order; and with exactly one malformed block among well-formed
ones it yields one request per well-formed block plus exactly one discrete
parse-error tool result at the malformed block's position, the dispatch of
every other block being unaffected. -/
theorem c4_parser_counts {A : Type} (decode : List Char → Option (ToolCallData A))
    (known : List Char → Bool) (execTool : List Char → A → List Char)
    (text : List Char) :
    (findBlocks text = [] → handleToolCalls decode known execTool text = ([], [])) ∧
    ((∀ b ∈ findBlocks text, (decode (pyStrip b)).isSome) →
      (handleToolCalls decode known execTool text).1 =
        (findBlocks text).filterMap (fun b => decode (pyStrip b)) ∧
      (handleToolCalls decode known execTool text).1.length = (findBlocks text).length ∧
      (handleToolCalls decode known execTool text).2.length = (findBlocks text).length) ∧
    (∀ pre bad post, findBlocks text = pre ++ bad :: post →
      (∀ b ∈ pre, (decode (pyStrip b)).isSome) →
      (∀ b ∈ post, (decode (pyStrip b)).isSome) →
      decode (pyStrip bad) = none →
      (handleToolCalls decode known execTool text).1 =
        pre.filterMap (fun b => decode (pyStrip b)) ++
          post.filterMap (fun b => decode (pyStrip b)) ∧
      (handleToolCalls decode known execTool text).1.length = pre.length + post.length ∧
      (handleToolCalls decode known execTool text).2.length = pre.length + 1 + post.length ∧
      (handleToolCalls decode known execTool text).2.get? pre.length =
        some (parseErrMsg (pyStrip bad) pre.length) ∧
      (∀ i b, (findBlocks text).get? i = some b → i ≠ pre.length →
        ∃ d, decode (pyStrip b) = some d ∧
          (handleToolCalls decode known execTool text).2.get? i =
            some (validResultMsg known execTool d (pyStrip b)))) := by
  have hfst : (handleToolCalls decode known execTool text).1 =
      (findBlocks text).filterMap (fun b => decode (pyStrip b)) := by
    unfold handleToolCalls
    rw [htcAux_eq]
  have hsnd : (handleToolCalls decode known execTool text).2 =
      resultsFor decode known execTool (findBlocks text) 0 := by
    unfold handleToolCalls
    rw [htcAux_eq]
  refine ⟨?_, ?_, ?_⟩
  · intro h
    unfold handleToolCalls
    rw [h]
    rfl
  · intro hall
    refine ⟨hfst, ?_, ?_⟩
    · rw [hfst]
      exact filterMap_length_all_some _ _ hall
    · rw [hsnd]
      exact resultsFor_length decode known execTool _ 0
  · intro pre bad post hsplit hpre hpost hbad
    refine ⟨?_, ?_, ?_, ?_, ?_⟩
    · rw [hfst, hsplit, List.filterMap_append]
      simp [List.filterMap_cons, hbad]
    · rw [hfst, hsplit, List.filterMap_append, List.length_append,
        filterMap_length_all_some _ _ hpre]
      simp [List.filterMap_cons, hbad, filterMap_length_all_some _ _ hpost]
    · rw [hsnd, resultsFor_length, hsplit]
      simp only [List.length_append, List.length_cons]
      omega
    · rw [hsnd, hsplit, resultsFor_get?,
        List.get?_append_right (Nat.le_refl pre.length)]
      simp [resultMsgFor, hbad]
    · intro i b hget hne
      have hbsome : (decode (pyStrip b)).isSome := by
        rw [hsplit] at hget
        rcases Nat.lt_trichotomy i pre.length with hlt | heq | hgt
        · have h2 : pre.get? i = some b := by
            rw [← List.get?_append hlt]
            exact hget
          exact hpre b (List.get?_mem h2)
        · exact absurd heq hne
        · have h2 : (bad :: post).get? (i - pre.length) = some b := by
            rw [← List.get?_append_right (by omega)]
            exact hget
          rcases hd : i - pre.length with _ | j
          · exact absurd hd (by omega)
          · rw [hd] at h2
            exact hpost b (List.get?_mem (show post.get? j = some b from h2))
      obtain ⟨d, hdv⟩ := Option.isSome_iff_exists.mp hbsome
      refine ⟨d, hdv, ?_⟩
      rw [hsnd, resultsFor_get?, hget]
      simp [resultMsgFor, hdv]

set_option maxRecDepth 40000 in
/-- Witness for C4: on the fixture text with two well-formed blocks around
one malformed one, parsing yields 2 requests and 3 results, the middle result
being the parse error at index 1. -/
theorem c4_parser_counts_witness :
    (handleToolCalls decodeStub knownStub execStub c4text).1.length = 1 + 1 ∧
    (handleToolCalls decodeStub knownStub execStub c4text).2.length = 1 + 1 + 1 ∧
    (handleToolCalls decodeStub knownStub execStub c4text).2.get? 1 =
      some (parseErrMsg (pyStrip "BAD".data) 1) := by
  have h := (c4_parser_counts decodeStub knownStub execStub c4text).2.2
    [" ".data ++ innerT ++ " ".data] "BAD".data ["\x7b\"name\": \"g\"\x7d".data]
    (by decide) (by decide) (by decide) (by decide)
  exact ⟨h.2.1, h.2.2.1, h.2.2.2.1⟩

set_option maxRecDepth 200000 in
/-- C1 (code bug): with an iteration cap of 2 and an LLM that always requests
a tool call, the loop performs exactly 2 generations past the initial one and
exits with the warning branch — but the text returned to the caller is the
cleaning of the EMPTY string, not of the last assistant response, because
`final_llm_output_for_user_processing` is never assigned on cap exhaustion.
The cleaned last response would have been `Working on it` (non-empty). -/
theorem c1_cap_exhaustion_returns_empty :
    (chat decodeStub knownStub execStub oracleC1 idUnescape sysPromptStub
      15 2 [sysMsg0] "hello".data []).text = [] ∧
    (chat decodeStub knownStub execStub oracleC1 idUnescape sysPromptStub
      15 2 [sysMsg0] "hello".data []).gens = 3 ∧
    cleanCore c1RespText = "Working on it".data ∧
    ("Working on it".data : List Char) ≠ [] := by
  decide

/-- C7 counterexample: for a first response with zero tool-call blocks the
loop does exit after one generation, but the returned text is NOT the result
of the claimed cleaning rule: the code additionally removes provider control
tokens (and strips whitespace and unescapes HTML entities), so on
`answer <|im_end|>` it returns `answer` while the claimed rule keeps the
token. -/
theorem c7_rule_mismatch_counterexample :
    (chat decodeStub knownStub execStub oracleC7 idUnescape sysPromptStub
      15 10000 [sysMsg0] "q".data []).text = "answer".data ∧
    (chat decodeStub knownStub execStub oracleC7 idUnescape sysPromptStub
      15 10000 [sysMsg0] "q".data []).gens = 1 ∧
    specCleanRule c7cexText = c7cexText ∧
    ("answer".data : List Char) ≠ c7cexText := by
  decide

/-- C7 amended: when the first response of a turn contains zero tool-call
marker blocks, `chat` exits after that single generation with no tool
dispatch, and returns that response cleaned by the code's full rule: the
reasoning-marker rule of the claim followed by tool-call-block removal,
provider control-token removal, whitespace stripping and HTML unescaping
(`cleanCore` then `unescape`). -/
theorem c7_first_gen_exit_amended {A : Type}
    (decode : List Char → Option (ToolCallData A)) (known : List Char → Bool)
    (execTool : List Char → A → List Char)
    (oracle : List (Msg A) → List Char × List Char)
    (unescape : List Char → List Char) (sysPrompt : List Char)
    (maxHist cap : Nat) (base : List (Msg A)) (userInput ctx : List Char)
    (hcap : 0 < cap)
    (hresp : findBlocks (getLlm oracle sysPrompt
      (betweenTurnPrune maxHist (base ++ [⟨userRole, userInput, none, none, []⟩]))
      ctx).2 = []) :
    chat decode known execTool oracle unescape sysPrompt maxHist cap base userInput ctx =
      ⟨betweenTurnPrune maxHist (base ++ [⟨userRole, userInput, none, none, []⟩]) ++
        [⟨asstRole,
          (getLlm oracle sysPrompt
            (betweenTurnPrune maxHist (base ++ [⟨userRole, userInput, none, none, []⟩]))
            ctx).1, none, none, []⟩],
      unescape (cleanCore (getLlm oracle sysPrompt
        (betweenTurnPrune maxHist (base ++ [⟨userRole, userInput, none, none, []⟩]))
        ctx).1),
      1⟩ := by
  cases cap with
  | zero => exact absurd hcap (by omega)
  | succ c =>
    have hh : handleToolCalls decode known execTool
        (getLlm oracle sysPrompt
          (betweenTurnPrune maxHist (base ++ [⟨userRole, userInput, none, none, []⟩]))
          ctx).2 = ([], []) := by
      unfold handleToolCalls
      rw [hresp]
      rfl
    unfold chat
    unfold toolLoop
    simp only [hh]
    rfl

/-- Witness for C7 amended: a plain-prose first response exits after one
generation with that response's cleaned text. -/
theorem c7_first_gen_exit_amended_witness :
    chat decodeStub knownStub execStub oracleAnswer idUnescape sysPromptStub
        15 10000 [sysMsg0] "q".data [] =
      ⟨betweenTurnPrune 15 ([sysMsg0] ++ [⟨userRole, "q".data, none, none, []⟩]) ++
        [⟨asstRole,
          (getLlm oracleAnswer sysPromptStub
            (betweenTurnPrune 15 ([sysMsg0] ++ [⟨userRole, "q".data, none, none, []⟩]))
            []).1, none, none, []⟩],
      idUnescape (cleanCore (getLlm oracleAnswer sysPromptStub
        (betweenTurnPrune 15 ([sysMsg0] ++ [⟨userRole, "q".data, none, none, []⟩]))
        []).1),
      1⟩ :=
  c7_first_gen_exit_amended decodeStub knownStub execStub oracleAnswer idUnescape
    sysPromptStub 15 10000 [sysMsg0] "q".data [] (by decide) (by decide)

end Jarvis
